import Mathlib

/-!
Verification of the request/response core of a small C weather HTTP server
(`src/server.c`).  Strings are embedded as `List Char` (C strings contain no
interior NUL in the relevant flows), machine `size_t` arithmetic is embedded
as `Int` arithmetic reduced modulo `2 ^ 64`, and C `double` values are
embedded as exact rationals `ℚ`.
-/

attribute [local semireducible] Rat.add Rat.mul Rat.sub Rat.inv Rat.ofScientific

namespace WeatherServer

/-- `isxdigit` from ctype.h: ASCII hex digit. -/
def isHexDigit (c : Char) : Bool :=
  if 48 ≤ c.toNat ∧ c.toNat ≤ 57 then true
  else if 97 ≤ c.toNat ∧ c.toNat ≤ 102 then true
  else if 65 ≤ c.toNat ∧ c.toNat ≤ 70 then true
  else false

/-- Value of one hex digit, as computed by `strtol(hex, NULL, 16)` per digit. -/
def hexVal (c : Char) : Nat :=
  if 48 ≤ c.toNat ∧ c.toNat ≤ 57 then c.toNat - 48
  else if 97 ≤ c.toNat ∧ c.toNat ≤ 102 then c.toNat - 87
  else if 65 ≤ c.toNat ∧ c.toNat ≤ 70 then c.toNat - 55
  else 0

/-- `url_decode` from server.c: in-place percent-decoding.  A `%` followed by
two hex digits becomes the corresponding byte, `+` becomes a space, everything
else is copied unchanged; a `%` not followed by two hex digits is copied
literally and scanning resumes at the next character. -/
def url_decode : List Char → List Char
  | [] => []
  | '%' :: h1 :: h2 :: t =>
    if isHexDigit h1 && isHexDigit h2 then
      Char.ofNat (16 * hexVal h1 + hexVal h2) :: url_decode t
    else '%' :: url_decode (h1 :: h2 :: t)
  | c :: t => (if c = '+' then ' ' else c) :: url_decode t

/-- `strchr`-style split: first occurrence of `ch` in `l`, returning the parts
before and after it. -/
def splitFirst (ch : Char) : List Char → Option (List Char × List Char)
  | [] => none
  | c :: t =>
    if c = ch then some ([], t)
    else
      match splitFirst ch t with
      | none => none
      | some (a, b) => some (c :: a, b)

/-- `strstr(buf, "\r\n")`: split at the first CRLF. -/
def crlfSplit : List Char → Option (List Char × List Char)
  | [] => none
  | '\r' :: '\n' :: t => some ([], t)
  | c :: t =>
    match crlfSplit t with
    | none => none
    | some (a, b) => some (c :: a, b)

/-- `2 ^ 64`, the modulus of C `size_t` arithmetic on this platform. -/
def SIZE_MOD : Int := 2 ^ 64

/-- The clamp bound `outlen - 1` computed in `size_t` arithmetic. -/
def capOf (outlen : Nat) : Nat := (((outlen : Int) - 1) % SIZE_MOD).toNat

/-- The loop of `parse_query_param` from server.c, with explicit fuel (the
loop consumes at least one character of `p` per iteration, so `p.length + 1`
fuel always suffices).  Each iteration finds the first `=` and the first `&`
in the remaining string `p`; if there is no `=` it stops; if the text before
the first `=` equals `key` it copies the value (clamped to `outlen - 1` bytes
in `size_t` arithmetic, where the value length is `amp - eq - 1` when a `&`
exists, also in `size_t` arithmetic) and percent-decodes it; otherwise it
advances past the first `&`. -/
def pqpF (key : List Char) (outlen : Nat) : Nat → List Char → Option (List Char)
  | 0, _ => none
  | fuel + 1, p =>
    match splitFirst '=' p with
    | none => none
    | some (k, rem) =>
      match splitFirst '&' p with
      | none =>
        if k = key then
          some (url_decode (rem.take (if outlen ≤ rem.length then capOf outlen else rem.length)))
        else none
      | some (pre, rest) =>
        if k = key then
          some (url_decode (rem.take
            (if outlen ≤ (((pre.length : Int) - (k.length : Int) - 1) % SIZE_MOD).toNat
             then capOf outlen
             else (((pre.length : Int) - (k.length : Int) - 1) % SIZE_MOD).toNat)))
        else pqpF key outlen fuel rest

/-- `parse_query_param` from server.c: `none` models the C return value 0
("not found"), `some v` models return 1 with decoded value `v` in `out`. -/
def parse_query_param (query : Option (List Char)) (key : List Char) (outlen : Nat) :
    Option (List Char) :=
  match query with
  | none => none
  | some q => pqpF key outlen (q.length + 1) q

/-- `starts_with` from server.c: `strncmp(s, pre, strlen(pre)) == 0`. -/
def starts_with (s pre : List Char) : Bool := pre.isPrefixOf s

/-- A parsed request line: method, path (query stripped), optional query. -/
structure ParsedRequest where
  method : List Char
  path : List Char
  query : Option (List Char)
deriving DecidableEq

/-- `parse_request_line` from server.c.  Fails when there is no CRLF, no
space after the method, or no second space; the method is clamped to 15
bytes (`sizeof method == 16`) and path+query to 255 bytes
(`sizeof path == 256`); the copied path buffer is split at its first `?`. -/
def parse_request_line (buf : List Char) : Option ParsedRequest :=
  match crlfSplit buf with
  | none => none
  | some (line, _) =>
    match splitFirst ' ' line with
    | none => none
    | some (m0, rest1) =>
      match splitFirst ' ' rest1 with
      | none => none
      | some (pq0, _) =>
        match splitFirst '?' (pq0.take 255) with
        | some (p, q) => some ⟨m0.take 15, p, some q⟩
        | none => some ⟨m0.take 15, pq0.take 255, none⟩

/-- One record of the in-memory city table. -/
structure City where
  city : List Char
  country : List Char
  lat : ℚ
  lon : ℚ
deriving DecidableEq

/-- `DEMO_CITIES` from server.c, in array order. -/
def DEMO_CITIES : List City :=
  [⟨"Stockholm".toList, "SE".toList, 59.3293, 18.0686⟩,
   ⟨"Orebro".toList, "SE".toList, 59.2741, 15.2066⟩,
   ⟨"Malmo".toList, "SE".toList, 55.6050, 13.0038⟩,
   ⟨"Gothenburg".toList, "SE".toList, 57.7089, 11.9746⟩,
   ⟨"Uppsala".toList, "SE".toList, 59.8586, 17.6389⟩]

/-- `find_city_by_name` from server.c: first entry whose name is `strcmp`-equal. -/
def find_city_by_name (name : List Char) : Option City :=
  DEMO_CITIES.find? (fun c => decide (c.city = name))

/-- The proximity predicate of `find_city_by_coords`: both coordinates within
`0.01` degrees. -/
def nearOf (lat lon : ℚ) (c : City) : Bool :=
  decide (|c.lat - lat| < 1 / 100 ∧ |c.lon - lon| < 1 / 100)

/-- `find_city_by_coords` from server.c: first entry (in array order) within
`0.01` degrees on both axes. -/
def find_city_by_coords (lat lon : ℚ) : Option City :=
  DEMO_CITIES.find? (nearOf lat lon)

/-- ASCII decimal digit. -/
def isDigitChar (c : Char) : Bool := decide (48 ≤ c.toNat ∧ c.toNat ≤ 57)

/-- `isspace` from ctype.h in the C locale. -/
def isSpaceChar (c : Char) : Bool :=
  decide (c.toNat = 32 ∨ c.toNat = 9 ∨ c.toNat = 10 ∨ c.toNat = 11 ∨ c.toNat = 12 ∨ c.toNat = 13)

/-- Value of a digit string read left to right. -/
def digitsToNat (l : List Char) : Nat := l.foldl (fun a c => 10 * a + (c.toNat - 48)) 0

/-- Leading-whitespace skip performed by `strtod`. -/
def skipSpaces (s : List Char) : List Char := s.dropWhile isSpaceChar

/-- Sign factor of the optional leading sign. -/
def signOf : List Char → ℚ
  | '-' :: _ => -1
  | _ => 1

/-- Drop the optional leading sign. -/
def afterSign : List Char → List Char
  | '-' :: t => t
  | '+' :: t => t
  | t => t

/-- Integer-part digits of the mantissa. -/
def intPart (s : List Char) : List Char := s.takeWhile isDigitChar

/-- What remains after the integer-part digits. -/
def afterInt (s : List Char) : List Char := s.dropWhile isDigitChar

/-- Fractional digits: only consumed after a decimal point. -/
def fracPart : List Char → List Char
  | '.' :: t => t.takeWhile isDigitChar
  | _ => []

/-- What remains after the optional fractional part. -/
def afterFrac : List Char → List Char
  | '.' :: t => t.dropWhile isDigitChar
  | t => t

/-- Exponent value: an `e`/`E` with optional sign and at least one digit;
anything else contributes exponent 0 (the exponent is not consumed). -/
def expPart : List Char → Int
  | c :: t =>
    if c = 'e' ∨ c = 'E' then
      let t2 := match t with
        | '-' :: u => u
        | '+' :: u => u
        | u => u
      let ed := t2.takeWhile isDigitChar
      if ed.length = 0 then 0
      else (match t with | '-' :: _ => (-1 : Int) | _ => 1) * (digitsToNat ed : Int)
    else 0
  | [] => 0

/-- Integer power of ten over ℚ. -/
def pow10 (e : Int) : ℚ := if 0 ≤ e then (10 : ℚ) ^ e.toNat else 1 / (10 : ℚ) ^ (-e).toNat

/-- Modelled from the spec: libc `atof` (the conversion itself is not in the
repository).  Decimal `strtod` behaviour over exact rationals: optional
whitespace, optional sign, digits with optional fraction and optional
exponent; when no mantissa digit is found no conversion is performed and the
result is `0.0`. -/
def atof (s : List Char) : ℚ :=
  let s2 := afterSign (skipSpaces s)
  let ip := intPart s2
  let fp := fracPart (afterInt s2)
  if ip.length = 0 ∧ fp.length = 0 then 0
  else
    signOf (skipSpaces s) * ((digitsToNat (ip ++ fp) : ℚ) / (10 : ℚ) ^ fp.length) *
      pow10 (expPart (afterFrac (afterInt s2)))

/-- Floor of a nonnegative rational as a `Nat` (numerator / denominator). -/
def ratFloorNat (r : ℚ) : Nat := (r.num / (r.den : Int)).toNat

/-- Decimal digits of `n`, zero-padded on the left to 4 places. -/
def pad4 (n : Nat) : List Char :=
  List.replicate (4 - (Nat.repr n).toList.length) '0' ++ (Nat.repr n).toList

/-- `printf` `%.4f` (round to nearest, 4 decimal digits; every reachable
argument is an exact multiple of `1/10000`, so no tie can occur). -/
def fmt4 (q : ℚ) : List Char :=
  (if q < 0 then ['-'] else []) ++
    (Nat.repr (ratFloorNat (|q| * 10000 + 1 / 2) / 10000)).toList ++
    '.' :: pad4 (ratFloorNat (|q| * 10000 + 1 / 2) % 10000)

/-- `printf` `%.1f` (round to nearest, 1 decimal digit). -/
def fmt1 (q : ℚ) : List Char :=
  (if q < 0 then ['-'] else []) ++
    (Nat.repr (ratFloorNat (|q| * 10 + 1 / 2) / 10)).toList ++
    '.' :: (Nat.repr (ratFloorNat (|q| * 10 + 1 / 2) % 10)).toList

/-- `json_error` from server.c. -/
def json_error (code : Nat) (message : List Char) : List Char :=
  "\x7b\"error\":\x7b\"code\":".toList ++ (Nat.repr code).toList ++
    ",\"message\":\"".toList ++ message ++ "\"\x7d\x7d".toList

/-- An HTTP response as passed to `write_response`: status code, status text,
content type and body.  Each C handler calls `write_response` exactly once on
every control path, which the embedding models by totally returning the
`Response` that call receives. -/
structure Response where
  status : Nat
  statusText : List Char
  contentType : List Char
  body : List Char
deriving DecidableEq

def okText : List Char := "OK".toList
def badRequestText : List Char := "Bad Request".toList
def notFoundText : List Char := "Not Found".toList
def methodNAText : List Char := "Method Not Allowed".toList
def noContentText : List Char := "No Content".toList
def contentJson : List Char := "application/json".toList
def contentTextPlain : List Char := "text/plain".toList
def msgMissingCity : List Char := "missing query param: city".toList
def msgCityTooLong : List Char := "city too long (max 100)".toList
def msgCityNotFound : List Char := "city not found".toList
def msgMissingLatLon : List Char := "missing query params: lat, lon".toList
def msgLatRange : List Char := "lat out of range (-90..90)".toList
def msgLonRange : List Char := "lon out of range (-180..180)".toList
def msgInvalidLine : List Char := "invalid request line".toList
def msgMethodNA : List Char := "method not allowed".toList
def msgNotFound : List Char := "not found".toList

/-- The 200-body built by `handle_geo` via `snprintf` (the 256-byte body
buffer never truncates for the five dataset entries). -/
def geoBody (c : City) : List Char :=
  "\x7b\"city\":\"".toList ++ c.city ++ "\",\"country\":\"".toList ++ c.country ++
    "\",\"lat\":".toList ++ fmt4 c.lat ++ ",\"lon\":".toList ++ fmt4 c.lon ++ "\x7d".toList

/-- `handle_geo` from server.c. -/
def handle_geo (query : Option (List Char)) : Response :=
  match parse_query_param query ("city".toList) 128 with
  | none => ⟨400, badRequestText, contentJson, json_error 400 msgMissingCity⟩
  | some city =>
    if 100 < city.length then ⟨400, badRequestText, contentJson, json_error 400 msgCityTooLong⟩
    else
      match find_city_by_name city with
      | none => ⟨404, notFoundText, contentJson, json_error 404 msgCityNotFound⟩
      | some c => ⟨200, okText, contentJson, geoBody c⟩

/-- The demo temperature/description mapping inside `handle_weather`. -/
def tempDesc : Option City → ℚ × List Char
  | some c =>
    if c.city = "Malmo".toList then (10.5, "Sunny".toList)
    else if c.city = "Gothenburg".toList then (8.2, "Windy".toList)
    else if c.city = "Orebro".toList then (6.3, "Overcast".toList)
    else (7.0, "Cloudy".toList)
  | none => (7.0, "Cloudy".toList)

/-- The 200-body built by `handle_weather`; `now` is the ISO-8601 timestamp
produced by `iso8601_utc_now` (wall-clock input to the embedding). -/
def weatherBody (tempC : ℚ) (desc now : List Char) : List Char :=
  "\x7b\"tempC\":".toList ++ fmt1 tempC ++ ",\"description\":\"".toList ++ desc ++
    "\",\"updatedAt\":\"".toList ++ now ++ "\"\x7d".toList

/-- `handle_weather` from server.c; `now` stands for the current UTC time
string. -/
def handle_weather (query : Option (List Char)) (now : List Char) : Response :=
  match parse_query_param query ("lat".toList) 64, parse_query_param query ("lon".toList) 64 with
  | some lat_s, some lon_s =>
    if ¬(-90 ≤ atof lat_s ∧ atof lat_s ≤ 90) then
      ⟨400, badRequestText, contentJson, json_error 400 msgLatRange⟩
    else if ¬(-180 ≤ atof lon_s ∧ atof lon_s ≤ 180) then
      ⟨400, badRequestText, contentJson, json_error 400 msgLonRange⟩
    else
      ⟨200, okText, contentJson,
        weatherBody (tempDesc (find_city_by_coords (atof lat_s) (atof lon_s))).1
          (tempDesc (find_city_by_coords (atof lat_s) (atof lon_s))).2 now⟩
  | _, _ => ⟨400, badRequestText, contentJson, json_error 400 msgMissingLatLon⟩

/-- `handle_request` from server.c: parse the request line, answer OPTIONS
with 204, reject non-GET with 405, then dispatch on path prefixes. -/
def handle_request (buf : List Char) (now : List Char) : Response :=
  match parse_request_line buf with
  | none => ⟨400, badRequestText, contentJson, json_error 400 msgInvalidLine⟩
  | some req =>
    if req.method = "OPTIONS".toList then ⟨204, noContentText, contentTextPlain, []⟩
    else if ¬ req.method = "GET".toList then
      ⟨405, methodNAText, contentJson, json_error 405 msgMethodNA⟩
    else if starts_with req.path ("/api/v1/geo".toList) then handle_geo req.query
    else if starts_with req.path ("/api/v1/weather".toList) then handle_weather req.query now
    else ⟨404, notFoundText, contentJson, json_error 404 msgNotFound⟩

/-- `write_response` from server.c: the serialized wire bytes (the 1024-byte
header buffer never truncates for the header sizes this server produces). -/
def write_response (status : Nat) (statusText contentType body : List Char) : List Char :=
  "HTTP/1.1 ".toList ++ (Nat.repr status).toList ++ ' ' :: statusText ++ "\r\n".toList ++
    "Content-Type: ".toList ++ contentType ++ "\r\n".toList ++
    "Content-Length: ".toList ++ (Nat.repr body.length).toList ++ "\r\n".toList ++
    "Access-Control-Allow-Origin: *\r\n".toList ++
    "Access-Control-Allow-Methods: GET, OPTIONS\r\n".toList ++
    "Access-Control-Allow-Headers: Content-Type\r\n".toList ++
    "Connection: close\r\n\r\n".toList ++
    body

/-- Split a query string on `&` into its pairs (spec-side notion). -/
def splitPairs : List Char → List (List Char)
  | [] => [[]]
  | c :: t =>
    if c = '&' then [] :: splitPairs t
    else
      match splitPairs t with
      | [] => [[c]]
      | a :: r => (c :: a) :: r

/-- Spec-side treatment of one pair: split on its first `=` into key and
value; a pair with no `=` never matches; the value is clamped to
`outlen - 1` bytes and percent-decoded. -/
def pairMatch (key : List Char) (outlen : Nat) (pair : List Char) : Option (List Char) :=
  match splitFirst '=' pair with
  | none => none
  | some (k, v) => if k = key then some (url_decode (v.take (capOf outlen))) else none

/-- First `some` produced by `f` over a list. -/
def firstSome (f : List Char → Option (List Char)) : List (List Char) → Option (List Char)
  | [] => none
  | a :: r =>
    match f a with
    | some v => some v
    | none => firstSome f r

/-- Modelled from the spec ("splits `query` on `&` into pairs, each pair
split on the first `=` into (key, value); compares the `key` argument
case-sensitively and exactly; returns the decoded value of the first match,
or not-found if no pair matches or `query` is absent/empty; overlong values
are truncated").  Used as the reference point for comparing the code's
`parse_query_param` against the spec's description. -/
def parseQueryParam_spec (query key : List Char) (outlen : Nat) : Option (List Char) :=
  if query = [] then none
  else firstSome (pairMatch key outlen) (splitPairs query)

theorem splitFirst_none_iff (ch : Char) (l : List Char) : splitFirst ch l = none ↔ ch ∉ l := by
  induction l with
  | nil => simp [splitFirst]
  | cons c t ih =>
    by_cases hc : c = ch
    · subst hc; simp [splitFirst]
    · cases h : splitFirst ch t with
      | none =>
        have ht : ch ∉ t := ih.mp h
        simp [splitFirst, hc, h, ht, Ne.symm hc]
      | some ab =>
        have ht : ch ∈ t := by
          by_contra hm
          rw [ih.mpr hm] at h
          cases h
        simp [splitFirst, hc, h, ht]

theorem splitFirst_eq_some (ch : Char) :
    ∀ (l a b : List Char), splitFirst ch l = some (a, b) → l = a ++ ch :: b ∧ ch ∉ a := by
  intro l
  induction l with
  | nil => intro a b h; cases h
  | cons c t ih =>
    intro a b h
    by_cases hc : c = ch
    · subst hc
      simp [splitFirst] at h
      obtain ⟨rfl, rfl⟩ := h
      simp
    · simp only [splitFirst, if_neg hc] at h
      cases ht : splitFirst ch t with
      | none => rw [ht] at h; cases h
      | some ab =>
        obtain ⟨a0, b0⟩ := ab
        rw [ht] at h
        simp only [Option.some.injEq, Prod.mk.injEq] at h
        obtain ⟨rfl, rfl⟩ := h
        obtain ⟨he, hm⟩ := ih a0 b0 ht
        constructor
        · simp [he]
        · simp only [List.mem_cons, not_or]
          exact ⟨Ne.symm hc, hm⟩

theorem splitFirst_prepend (ch : Char) :
    ∀ (a : List Char), ch ∉ a → ∀ b,
      splitFirst ch (a ++ b) = (splitFirst ch b).map (fun pr => (a ++ pr.1, pr.2)) := by
  intro a
  induction a with
  | nil =>
    intro _ b
    cases h : splitFirst ch b with
    | none => simp [h]
    | some pr => simp [h]
  | cons c t ih =>
    intro hmem b
    have hc : ¬ c = ch := by
      intro h
      exact hmem (by simp [h])
    have ht : ch ∉ t := fun h => hmem (List.mem_cons_of_mem _ h)
    simp only [List.cons_append, splitFirst, if_neg hc, List.append_eq]
    rw [ih ht b]
    cases h : splitFirst ch b with
    | none => simp
    | some pr => simp

theorem splitFirst_at (ch : Char) (a b : List Char) (h : ch ∉ a) :
    splitFirst ch (a ++ ch :: b) = some (a, b) := by
  rw [splitFirst_prepend ch a h (ch :: b)]
  simp [splitFirst]

theorem split_unique {ch : Char} {a b a' b' : List Char}
    (ha : ch ∉ a) (ha' : ch ∉ a') (h : a ++ ch :: b = a' ++ ch :: b') : a = a' ∧ b = b' := by
  have h1 := splitFirst_at ch a b ha
  rw [h, splitFirst_at ch a' b' ha'] at h1
  simpa [eq_comm] using h1

theorem crlfSplit_single (c : Char) : crlfSplit [c] = none := by
  rw [crlfSplit.eq_def]
  split
  · rfl
  · rename_i heq
    exact absurd heq (by simp)
  · rename_i heq
    injection heq with h1 h2
    subst h2
    simp [crlfSplit]

theorem crlfSplit_cons_cons (c c2 : Char) (t2 : List Char) (h : ¬(c = '\r' ∧ c2 = '\n')) :
    crlfSplit (c :: c2 :: t2) =
      match crlfSplit (c2 :: t2) with
      | none => none
      | some (a, b) => some (c :: a, b) := by
  rw [crlfSplit.eq_def]
  split
  · rename_i heq
    exact absurd heq (by simp)
  · rename_i heq
    injection heq with h1 h2
    injection h2 with h3 _
    exact absurd ⟨h1, h3⟩ h
  · rename_i heq
    injection heq with h1 h2
    subst h1
    subst h2
    rfl

theorem crlfSplit_eq_some :
    ∀ (l a b : List Char), crlfSplit l = some (a, b) → l = a ++ '\r' :: '\n' :: b ∧
      ¬ ∃ a1 b1, a = a1 ++ '\r' :: '\n' :: b1 := by
  intro l
  induction l with
  | nil => intro a b h; cases h
  | cons c t ih =>
    intro a b h
    rcases t with _ | ⟨c2, t2⟩
    · rw [crlfSplit_single] at h; cases h
    · by_cases hrn : c = '\r' ∧ c2 = '\n'
      · obtain ⟨rfl, rfl⟩ := hrn
        simp [crlfSplit] at h
        obtain ⟨rfl, rfl⟩ := h
        refine ⟨rfl, ?_⟩
        rintro ⟨a1, b1, h1⟩
        rcases a1 with _ | ⟨c1, a1⟩ <;> simp at h1
      · rw [crlfSplit_cons_cons c c2 t2 hrn] at h
        cases hs : crlfSplit (c2 :: t2) with
        | none => rw [hs] at h; cases h
        | some pr =>
          obtain ⟨a0, b0⟩ := pr
          rw [hs] at h
          simp only [Option.some.injEq, Prod.mk.injEq] at h
          obtain ⟨rfl, rfl⟩ := h
          obtain ⟨he, hm⟩ := ih a0 b0 hs
          refine ⟨by simp [he], ?_⟩
          rintro ⟨a1, b1, h1⟩
          rcases a1 with _ | ⟨c1, a1⟩
          · simp only [List.nil_append, List.cons.injEq] at h1
            obtain ⟨rfl, rfl⟩ := h1
            simp only [List.cons_append, List.cons.injEq] at he
            exact hrn ⟨rfl, he.1⟩
          · simp only [List.cons_append, List.cons.injEq] at h1
            exact hm ⟨a1, b1, h1.2⟩

theorem crlfSplit_none_iff (l : List Char) :
    crlfSplit l = none ↔ ¬ ∃ a b, l = a ++ '\r' :: '\n' :: b := by
  induction l with
  | nil =>
    simp only [crlfSplit, true_iff]
    rintro ⟨a, b, h⟩
    rcases a with _ | ⟨c1, a1⟩ <;> simp at h
  | cons c t ih =>
    rcases t with _ | ⟨c2, t2⟩
    · rw [crlfSplit_single]
      simp only [true_iff]
      rintro ⟨a, b, h⟩
      rcases a with _ | ⟨c1, a1⟩
      · simp at h
      · simp only [List.cons_append, List.cons.injEq] at h
        rcases a1 with _ | ⟨c3, a3⟩ <;> simp at h
    · by_cases hrn : c = '\r' ∧ c2 = '\n'
      · obtain ⟨rfl, rfl⟩ := hrn
        simp only [crlfSplit]
        constructor
        · intro h; cases h
        · intro h
          exact absurd ⟨[], t2, rfl⟩ h
      · rw [crlfSplit_cons_cons c c2 t2 hrn]
        have hiff : (∃ a b, c :: c2 :: t2 = a ++ '\r' :: '\n' :: b) ↔
            ∃ a b, c2 :: t2 = a ++ '\r' :: '\n' :: b := by
          constructor
          · rintro ⟨a, b, h⟩
            rcases a with _ | ⟨c1, a1⟩
            · simp only [List.nil_append, List.cons.injEq] at h
              obtain ⟨rfl, h2⟩ := h
              exact absurd ⟨rfl, h2.1⟩ hrn
            · simp only [List.cons_append, List.cons.injEq] at h
              exact ⟨a1, b, h.2⟩
          · rintro ⟨a, b, h⟩
            exact ⟨c :: a, b, by simp [h]⟩
        cases hs : crlfSplit (c2 :: t2) with
        | none =>
          constructor
          · intro _
            rw [hiff]
            exact ih.mp hs
          · intro _
            rfl
        | some pr =>
          obtain ⟨a0, b0⟩ := pr
          constructor
          · intro h
            exact Option.noConfusion h
          · intro h
            have hex : ∃ a b, c2 :: t2 = a ++ '\r' :: '\n' :: b := by
              by_contra hne
              have h2 := ih.mpr hne
              rw [hs] at h2
              cases h2
            exact absurd (hiff.mpr hex) h

theorem splitPairs_ne_nil (l : List Char) : splitPairs l ≠ [] := by
  induction l with
  | nil => simp [splitPairs]
  | cons c t ih =>
    by_cases hc : c = '&'
    · simp [splitPairs, hc]
    · simp only [splitPairs, if_neg hc]
      cases h : splitPairs t with
      | nil => simp
      | cons a r => simp

theorem splitPairs_no_amp : ∀ l : List Char, '&' ∉ l → splitPairs l = [l] := by
  intro l
  induction l with
  | nil => intro _; rfl
  | cons c t ih =>
    intro h
    have hc : ¬ c = '&' := fun he => h (by simp [he])
    have ht : '&' ∉ t := fun hm => h (List.mem_cons_of_mem _ hm)
    simp only [splitPairs, if_neg hc, ih ht]

theorem splitPairs_amp : ∀ a b : List Char, '&' ∉ a → splitPairs (a ++ '&' :: b) = a :: splitPairs b := by
  intro a
  induction a with
  | nil => intro b _; simp [splitPairs]
  | cons c t ih =>
    intro b h
    have hc : ¬ c = '&' := fun he => h (by simp [he])
    have ht : '&' ∉ t := fun hm => h (List.mem_cons_of_mem _ hm)
    simp only [List.cons_append, splitPairs, if_neg hc, List.append_eq]
    rw [ih b ht]

theorem mem_splitPairs : ∀ (l x : List Char), x ∈ splitPairs l → ∀ c ∈ x, c ∈ l := by
  intro l
  induction l with
  | nil =>
    intro x hx c hc
    simp [splitPairs] at hx
    subst hx
    simp at hc
  | cons d t ih =>
    intro x hx c hc
    by_cases hd : d = '&'
    · simp only [splitPairs, if_pos hd] at hx
      rcases List.mem_cons.mp hx with rfl | hxr
      · simp at hc
      · exact List.mem_cons_of_mem _ (ih x hxr c hc)
    · simp only [splitPairs, if_neg hd] at hx
      cases h : splitPairs t with
      | nil => exact absurd h (splitPairs_ne_nil t)
      | cons a r =>
        rw [h] at hx
        rcases List.mem_cons.mp hx with rfl | hxr
        · rcases List.mem_cons.mp hc with rfl | hca
          · simp
          · exact List.mem_cons_of_mem _ (ih a (by rw [h]; simp) c hca)
        · exact List.mem_cons_of_mem _ (ih x (by rw [h]; simp [hxr]) c hc)

theorem firstSome_none (f : List Char → Option (List Char)) :
    ∀ ps, (∀ x ∈ ps, f x = none) → firstSome f ps = none := by
  intro ps
  induction ps with
  | nil => intro _; rfl
  | cons a r ih =>
    intro h
    simp only [firstSome, h a (by simp)]
    exact ih (fun x hx => h x (by simp [hx]))

theorem capOf_eq (outlen : Nat) (h1 : 1 ≤ outlen) (h2 : outlen ≤ 2 ^ 64) :
    capOf outlen = outlen - 1 := by
  unfold capOf SIZE_MOD
  rw [Int.emod_eq_of_lt (by omega) (by push_cast; omega)]
  omega

theorem pqpF_succ (key : List Char) (outlen fuel : Nat) (p : List Char) :
    pqpF key outlen (fuel + 1) p =
      match splitFirst '=' p with
      | none => none
      | some (k, rem) =>
        match splitFirst '&' p with
        | none =>
          if k = key then
            some (url_decode (rem.take (if outlen ≤ rem.length then capOf outlen else rem.length)))
          else none
        | some (pre, rest) =>
          if k = key then
            some (url_decode (rem.take
              (if outlen ≤ (((pre.length : Int) - (k.length : Int) - 1) % SIZE_MOD).toNat
               then capOf outlen
               else (((pre.length : Int) - (k.length : Int) - 1) % SIZE_MOD).toNat)))
          else pqpF key outlen fuel rest := rfl

theorem pqpF_fuel (key : List Char) (outlen : Nat) :
    ∀ (f1 : Nat) (p : List Char) (f2 : Nat), p.length < f1 → p.length < f2 →
      pqpF key outlen f1 p = pqpF key outlen f2 p := by
  intro f1
  induction f1 with
  | zero => intro p f2 h1 _; exact absurd h1 (Nat.not_lt_zero _)
  | succ f1 ih =>
    intro p f2 h1 h2
    obtain ⟨f2', rfl⟩ : ∃ f2', f2 = f2' + 1 := ⟨f2 - 1, by omega⟩
    rw [pqpF_succ key outlen f1 p, pqpF_succ key outlen f2' p]
    cases hsq : splitFirst '=' p with
    | none => rfl
    | some kr =>
      obtain ⟨k, rem⟩ := kr
      cases hamp : splitFirst '&' p with
      | none => rfl
      | some pr =>
        obtain ⟨pre, rest⟩ := pr
        by_cases hk : k = key
        · simp [hk]
        · simp only [if_neg hk]
          have hlen : rest.length < p.length := by
            obtain ⟨he, _⟩ := splitFirst_eq_some '&' p pre rest hamp
            rw [he, List.length_append, List.length_cons]
            omega
          exact ih rest f2' (by omega) (by omega)

theorem pqpF_eq_spec (key : List Char) (outlen : Nat) (hk : '&' ∉ key)
    (h1o : 1 ≤ outlen) (h2o : outlen ≤ 2 ^ 64) :
    ∀ (n : Nat) (p : List Char), p.length ≤ n → p.length < 2 ^ 64 →
      pqpF key outlen (p.length + 1) p = firstSome (pairMatch key outlen) (splitPairs p) := by
  intro n
  induction n with
  | zero =>
    intro p hn _
    have hp : p = [] := List.length_eq_zero.mp (Nat.le_zero.mp hn)
    subst hp
    rfl
  | succ n ih =>
    intro p hn hlt
    rw [pqpF_succ]
    cases hsq : splitFirst '=' p with
    | none =>
      have hnp : '=' ∉ p := (splitFirst_none_iff _ _).mp hsq
      refine Eq.symm (firstSome_none _ _ ?_)
      intro x hx
      show pairMatch key outlen x = none
      unfold pairMatch
      rw [(splitFirst_none_iff '=' x).mpr (fun hc => hnp (mem_splitPairs p x hx '=' hc))]
    | some kr =>
      obtain ⟨k, rem⟩ := kr
      cases hamp : splitFirst '&' p with
      | none =>
        have hnamp : '&' ∉ p := (splitFirst_none_iff _ _).mp hamp
        rw [splitPairs_no_amp p hnamp]
        simp only [firstSome, pairMatch, hsq]
        by_cases hkk : k = key
        · simp only [if_pos hkk]
          by_cases hol : outlen ≤ rem.length
          · simp [hol]
          · simp only [if_neg hol]
            rw [List.take_length, List.take_of_length_le (by rw [capOf_eq outlen h1o h2o]; omega)]
        · simp [hkk, firstSome]
      | some pr =>
        obtain ⟨pre, rest⟩ := pr
        obtain ⟨hpeq2, hanmem⟩ := splitFirst_eq_some '&' p pre rest hamp
        have hrestlen : rest.length < p.length := by
          rw [hpeq2, List.length_append, List.length_cons]
          omega
        rw [hpeq2, splitPairs_amp pre rest hanmem]
        simp only [firstSome]
        cases heqpre : splitFirst '=' pre with
        | some kv =>
          obtain ⟨k', v⟩ := kv
          obtain ⟨hpre_eq, hknm⟩ := splitFirst_eq_some '=' pre k' v heqpre
          have hsq2 : splitFirst '=' p = some (k', v ++ '&' :: rest) := by
            rw [hpeq2, hpre_eq]
            have hassoc : (k' ++ '=' :: v) ++ '&' :: rest = k' ++ '=' :: (v ++ '&' :: rest) := by
              simp
            rw [hassoc]
            exact splitFirst_at '=' k' (v ++ '&' :: rest) hknm
          rw [hsq] at hsq2
          simp only [Option.some.injEq, Prod.mk.injEq] at hsq2
          obtain ⟨rfl, rfl⟩ := hsq2
          simp only [pairMatch, heqpre]
          have hvlen : v.length < 2 ^ 64 := by
            have := hrestlen
            have hplen : pre.length < p.length := by
              rw [hpeq2, List.length_append, List.length_cons]
              omega
            have : v.length < pre.length := by
              rw [hpre_eq, List.length_append, List.length_cons]
              omega
            omega
          have hvl : (((pre.length : Int) - ((k : List Char).length : Int) - 1) % SIZE_MOD).toNat
              = v.length := by
            have hlen_pre : pre.length = k.length + 1 + v.length := by
              rw [hpre_eq, List.length_append, List.length_cons]
              omega
            have hred : ((pre.length : Int) - ((k : List Char).length : Int) - 1)
                = (v.length : Int) := by
              rw [hlen_pre]
              push_cast
              ring
            rw [hred, Int.emod_eq_of_lt (by omega) (by unfold SIZE_MOD; push_cast; omega),
              Int.toNat_natCast]
          rw [hvl]
          have hcap : capOf outlen = outlen - 1 := capOf_eq outlen h1o h2o
          by_cases hkk : k = key
          · simp only [if_pos hkk]
            by_cases hol : outlen ≤ v.length
            · simp only [if_pos hol]
              have htake : (v ++ '&' :: rest).take (capOf outlen) = v.take (capOf outlen) := by
                rw [List.take_append_eq_append_take]
                have hz : capOf outlen - v.length = 0 := by omega
                rw [hz]
                simp
              rw [htake]
            · simp only [if_neg hol]
              have h2t : v.take (capOf outlen) = v := List.take_of_length_le (by omega)
              have h3t : (v ++ '&' :: rest).take v.length = v := by
                rw [List.take_append_eq_append_take]
                simp
              rw [h2t, h3t]
          · simp only [if_neg hkk]
            rw [pqpF_fuel key outlen _ rest (rest.length + 1)
              (by rw [List.length_append, List.length_cons]; omega) (by omega)]
            exact ih rest (by omega) (by omega)
        | none =>
          have hnp : '=' ∉ pre := (splitFirst_none_iff _ _).mp heqpre
          have hnp2 : '=' ∉ pre ++ ['&'] := by
            simp only [List.mem_append, List.mem_singleton, not_or]
            exact ⟨hnp, by decide⟩
          have hp2 : pre ++ '&' :: rest = (pre ++ ['&']) ++ rest := by simp
          rw [hpeq2, hp2, splitFirst_prepend '=' (pre ++ ['&']) hnp2 rest] at hsq
          cases hrest : splitFirst '=' rest with
          | none =>
            rw [hrest] at hsq
            cases hsq
          | some kv2 =>
            obtain ⟨k2, rem2⟩ := kv2
            rw [hrest] at hsq
            simp only [Option.map_some', Option.some.injEq, Prod.mk.injEq] at hsq
            obtain ⟨hkval, rfl⟩ := hsq
            have hkk : ¬ k = key := by
              intro he
              apply hk
              rw [← he, ← hkval]
              simp
            simp only [if_neg hkk, pairMatch, heqpre]
            rw [pqpF_fuel key outlen _ rest (rest.length + 1)
              (by rw [List.length_append, List.length_cons]; omega) (by omega)]
            exact ih rest (by omega) (by omega)

theorem url_decode_cons_other (c : Char) (t : List Char) (hc1 : c ≠ '%') :
    url_decode (c :: t) = (if c = '+' then ' ' else c) :: url_decode t := by
  rw [url_decode.eq_def]
  split
  · rename_i heq
    exact absurd heq (by simp)
  · rename_i heq
    injection heq with hh _
    exact absurd hh hc1
  · rename_i heq
    injection heq with hh ht
    subst hh
    subst ht
    rfl

theorem url_decode_percent_hex (h1 h2 : Char) (t : List Char)
    (hh1 : isHexDigit h1 = true) (hh2 : isHexDigit h2 = true) :
    url_decode ('%' :: h1 :: h2 :: t) =
      Char.ofNat (16 * hexVal h1 + hexVal h2) :: url_decode t := by
  simp [url_decode, hh1, hh2]

theorem url_decode_percent_bad (h1 h2 : Char) (t : List Char)
    (hbad : ¬(isHexDigit h1 = true ∧ isHexDigit h2 = true)) :
    url_decode ('%' :: h1 :: h2 :: t) = '%' :: url_decode (h1 :: h2 :: t) := by
  have hfalse : (isHexDigit h1 && isHexDigit h2) = false := by
    cases hx : isHexDigit h1 <;> cases hy : isHexDigit h2 <;> simp_all
  simp [url_decode, hfalse]

theorem url_decode_length : ∀ s : List Char, (url_decode s).length ≤ s.length := by
  have H : ∀ (n : Nat) (s : List Char), s.length ≤ n → (url_decode s).length ≤ s.length := by
    intro n
    induction n with
    | zero =>
      intro s h
      have hs : s = [] := List.length_eq_zero.mp (Nat.le_zero.mp h)
      subst hs
      simp [url_decode]
    | succ n ih =>
      intro s h
      rcases s with _ | ⟨c, t⟩
      · simp [url_decode]
      · by_cases hc : c = '%'
        · subst hc
          rcases t with _ | ⟨d1, t1⟩
          · simp [url_decode]
          · rcases t1 with _ | ⟨d2, t2⟩
            · rw [show url_decode ['%', d1] = '%' :: url_decode [d1] from rfl]
              have hd := ih [d1] (by simp only [List.length_cons] at h ⊢; omega)
              simp only [List.length_cons] at hd ⊢
              omega
            · by_cases hx : isHexDigit d1 = true ∧ isHexDigit d2 = true
              · rw [url_decode_percent_hex d1 d2 t2 hx.1 hx.2]
                have ht := ih t2 (by simp only [List.length_cons] at h ⊢; omega)
                simp only [List.length_cons] at ht ⊢
                omega
              · rw [url_decode_percent_bad d1 d2 t2 hx]
                have ht := ih (d1 :: d2 :: t2) (by simp only [List.length_cons] at h ⊢; omega)
                simp only [List.length_cons] at ht ⊢
                omega
        · rw [url_decode_cons_other c t hc]
          have ht := ih t (by simp only [List.length_cons] at h; omega)
          simp only [List.length_cons]
          omega
  intro s
  exact H s.length s le_rfl

theorem url_decode_of_not_mem : ∀ s : List Char, '%' ∉ s → '+' ∉ s → url_decode s = s := by
  intro s
  induction s with
  | nil => intro _ _; rfl
  | cons c t ih =>
    intro h1 h2
    have hc1 : c ≠ '%' := fun he => h1 (by simp [he])
    have hc2 : c ≠ '+' := fun he => h2 (by simp [he])
    rw [url_decode_cons_other c t hc1, if_neg hc2,
      ih (fun hm => h1 (List.mem_cons_of_mem _ hm)) (fun hm => h2 (List.mem_cons_of_mem _ hm))]

theorem find?_eq_some_first {α : Type} (p : α → Bool) :
    ∀ (l : List α) (a : α), l.find? p = some a →
      p a = true ∧ ∃ l1 l2, l = l1 ++ a :: l2 ∧ ∀ x ∈ l1, p x = false := by
  intro l
  induction l with
  | nil => intro a h; cases h
  | cons b t ih =>
    intro a h
    cases hb : p b with
    | true =>
      rw [List.find?_cons_of_pos _ hb] at h
      simp only [Option.some.injEq] at h
      subst h
      exact ⟨hb, [], t, rfl, by simp⟩
    | false =>
      rw [List.find?_cons_of_neg _ (by simp [hb])] at h
      obtain ⟨hp, l1, l2, rfl, hall⟩ := ih a h
      refine ⟨hp, b :: l1, l2, rfl, ?_⟩
      intro x hx
      rcases List.mem_cons.mp hx with rfl | hx1
      · exact hb
      · exact hall x hx1

theorem afterSign_mem : ∀ (l : List Char), ∀ c ∈ afterSign l, c ∈ l := by
  intro l
  rw [afterSign.eq_def]
  split
  · intro c hc; exact List.mem_cons_of_mem _ hc
  · intro c hc; exact List.mem_cons_of_mem _ hc
  · intro c hc; exact hc

theorem atof_no_digits (s : List Char) (h : ∀ c ∈ s, isDigitChar c = false) : atof s = 0 := by
  have hs2 : ∀ c ∈ afterSign (skipSpaces s), isDigitChar c = false := by
    intro c hc
    exact h c (List.Sublist.mem (afterSign_mem _ c hc) (List.dropWhile_sublist _))
  have hip : intPart (afterSign (skipSpaces s)) = [] := by
    unfold intPart
    cases hc : afterSign (skipSpaces s) with
    | nil => rfl
    | cons c t =>
      have hd := hs2 c (by rw [hc]; simp)
      simp [List.takeWhile, hd]
  have hai : afterInt (afterSign (skipSpaces s)) = afterSign (skipSpaces s) := by
    unfold afterInt
    cases hc : afterSign (skipSpaces s) with
    | nil => rfl
    | cons c t =>
      have hd := hs2 c (by rw [hc]; simp)
      simp [List.dropWhile, hd]
  have hfp : fracPart (afterInt (afterSign (skipSpaces s))) = [] := by
    rw [hai]
    rw [fracPart.eq_def]
    split
    · rename_i t heq
      cases t with
      | nil => rfl
      | cons c2 t2 =>
        have hd : isDigitChar c2 = false := hs2 c2 (by rw [heq]; simp)
        simp [List.takeWhile, hd]
    · rfl
  simp only [atof]
  rw [hip, hfp]
  simp

theorem handle_geo_status (q : Option (List Char)) :
    (handle_geo q).status = 400 ∨ (handle_geo q).status = 404 ∨ (handle_geo q).status = 200 := by
  unfold handle_geo
  cases hp : parse_query_param q ("city".toList) 128 with
  | none => left; rfl
  | some city =>
    dsimp only
    by_cases hl : 100 < city.length
    · rw [if_pos hl]
      left; rfl
    · rw [if_neg hl]
      cases hf : find_city_by_name city with
      | none => right; left; rfl
      | some c => right; right; rfl

theorem handle_weather_status (q : Option (List Char)) (now : List Char) :
    (handle_weather q now).status = 400 ∨ (handle_weather q now).status = 200 := by
  unfold handle_weather
  cases hp1 : parse_query_param q ("lat".toList) 64 with
  | none => left; rfl
  | some ls =>
    cases hp2 : parse_query_param q ("lon".toList) 64 with
    | none => left; rfl
    | some los =>
      dsimp only
      by_cases hA : -90 ≤ atof ls ∧ atof ls ≤ 90
      · rw [if_neg (not_not_intro hA)]
        by_cases hB : -180 ≤ atof los ∧ atof los ≤ 180
        · rw [if_neg (not_not_intro hB)]
          right; rfl
        · rw [if_pos hB]
          left; rfl
      · rw [if_pos hA]
        left; rfl

/-- C5: percent-decoding scans left to right: a `%` followed by two hex digits
decodes to the corresponding byte, a literal `+` decodes to a space, any other
character passes through unchanged, a `%` not followed by two hex digits is
copied through literally without error, and the output length is at most the
input length. -/
theorem url_decode_behavior (s : List Char) :
    (url_decode s).length ≤ s.length ∧
    (∀ h1 h2 t, s = '%' :: h1 :: h2 :: t → isHexDigit h1 = true → isHexDigit h2 = true →
      url_decode s = Char.ofNat (16 * hexVal h1 + hexVal h2) :: url_decode t) ∧
    (∀ t, s = '+' :: t → url_decode s = ' ' :: url_decode t) ∧
    (∀ c t, s = c :: t → c ≠ '%' → c ≠ '+' → url_decode s = c :: url_decode t) ∧
    (∀ t, s = '%' :: t →
      (∀ h1 h2 t2, t = h1 :: h2 :: t2 → ¬(isHexDigit h1 = true ∧ isHexDigit h2 = true)) →
      url_decode s = '%' :: url_decode t) := by
  refine ⟨url_decode_length s, ?_, ?_, ?_, ?_⟩
  · rintro h1 h2 t rfl hh1 hh2
    exact url_decode_percent_hex h1 h2 t hh1 hh2
  · rintro t rfl
    rw [url_decode_cons_other '+' t (by decide), if_pos rfl]
  · rintro c t rfl hc1 hc2
    rw [url_decode_cons_other c t hc1, if_neg hc2]
  · rintro t rfl hbad
    rcases t with _ | ⟨d1, t1⟩
    · rfl
    · rcases t1 with _ | ⟨d2, t2⟩
      · rfl
      · exact url_decode_percent_bad d1 d2 t2 (hbad d1 d2 t2 rfl)

/-- Witness for C5 at the concrete input `"%20x"`. -/
theorem url_decode_behavior_witness :
    url_decode ("%20x".toList) =
      Char.ofNat (16 * hexVal '2' + hexVal '0') :: url_decode ("x".toList) :=
  (url_decode_behavior ("%20x".toList)).2.1 '2' '0' ("x".toList) (by decide) (by decide)
    (by decide)

/-- C9: percent-decoding is idempotent on inputs with no `%` and no `+`
(indeed it is the identity there, so applying it twice equals applying it
once), and it decodes `"Malmo%20City"` to `"Malmo City"`. -/
theorem percent_decode_idempotent (s : List Char) (h1 : '%' ∉ s) (h2 : '+' ∉ s) :
    url_decode (url_decode s) = url_decode s ∧
    url_decode ("Malmo%20City".toList) = "Malmo City".toList := by
  constructor
  · have h := url_decode_of_not_mem s h1 h2
    rw [h]
    exact h
  · decide

/-- Witness for C9 at the concrete input `"abc"`. -/
theorem percent_decode_idempotent_witness :
    url_decode (url_decode ("abc".toList)) = url_decode ("abc".toList) ∧
    url_decode ("Malmo%20City".toList) = "Malmo City".toList :=
  percent_decode_idempotent ("abc".toList) (by decide) (by decide)

/-- C8: every serialized response carries a `Content-Length` header whose
value is the exact byte length of the body (0 for an empty body), and the
`Content-Type`, CORS and `Connection: close` headers are always present. -/
theorem response_headers_invariant (status : Nat) (st ct body : List Char) :
    (∃ a b, write_response status st ct body =
      a ++ ("Content-Length: ".toList ++ (Nat.repr body.length).toList ++ "\r\n".toList) ++ b) ∧
    (∃ a b, write_response status st ct body =
      a ++ ("Content-Type: ".toList ++ ct ++ "\r\n".toList) ++ b) ∧
    (∃ a b, write_response status st ct body =
      a ++ "Access-Control-Allow-Origin: *\r\n".toList ++ b) ∧
    (∃ a b, write_response status st ct body =
      a ++ "Access-Control-Allow-Methods: GET, OPTIONS\r\n".toList ++ b) ∧
    (∃ a b, write_response status st ct body =
      a ++ "Access-Control-Allow-Headers: Content-Type\r\n".toList ++ b) ∧
    (∃ a b, write_response status st ct body =
      a ++ "Connection: close\r\n".toList ++ b) ∧
    (body = [] → ∃ a b, write_response status st ct body =
      a ++ "Content-Length: 0\r\n".toList ++ b) := by
  refine ⟨?_, ?_, ?_, ?_, ?_, ?_, ?_⟩
  · exact ⟨"HTTP/1.1 ".toList ++ (Nat.repr status).toList ++
      ' ' :: (st ++ "\r\n".toList ++ "Content-Type: ".toList ++ ct ++ "\r\n".toList),
      "Access-Control-Allow-Origin: *\r\n".toList ++
        "Access-Control-Allow-Methods: GET, OPTIONS\r\n".toList ++
        "Access-Control-Allow-Headers: Content-Type\r\n".toList ++
        "Connection: close\r\n\r\n".toList ++ body,
      by simp only [write_response, List.append_assoc, List.cons_append]⟩
  · exact ⟨"HTTP/1.1 ".toList ++ (Nat.repr status).toList ++ ' ' :: (st ++ "\r\n".toList),
      "Content-Length: ".toList ++ (Nat.repr body.length).toList ++ "\r\n".toList ++
        "Access-Control-Allow-Origin: *\r\n".toList ++
        "Access-Control-Allow-Methods: GET, OPTIONS\r\n".toList ++
        "Access-Control-Allow-Headers: Content-Type\r\n".toList ++
        "Connection: close\r\n\r\n".toList ++ body,
      by simp only [write_response, List.append_assoc, List.cons_append]⟩
  · exact ⟨"HTTP/1.1 ".toList ++ (Nat.repr status).toList ++
      ' ' :: (st ++ "\r\n".toList ++ "Content-Type: ".toList ++ ct ++ "\r\n".toList ++
        "Content-Length: ".toList ++ (Nat.repr body.length).toList ++ "\r\n".toList),
      "Access-Control-Allow-Methods: GET, OPTIONS\r\n".toList ++
        "Access-Control-Allow-Headers: Content-Type\r\n".toList ++
        "Connection: close\r\n\r\n".toList ++ body,
      by simp only [write_response, List.append_assoc, List.cons_append]⟩
  · exact ⟨"HTTP/1.1 ".toList ++ (Nat.repr status).toList ++
      ' ' :: (st ++ "\r\n".toList ++ "Content-Type: ".toList ++ ct ++ "\r\n".toList ++
        "Content-Length: ".toList ++ (Nat.repr body.length).toList ++ "\r\n".toList ++
        "Access-Control-Allow-Origin: *\r\n".toList),
      "Access-Control-Allow-Headers: Content-Type\r\n".toList ++
        "Connection: close\r\n\r\n".toList ++ body,
      by simp only [write_response, List.append_assoc, List.cons_append]⟩
  · exact ⟨"HTTP/1.1 ".toList ++ (Nat.repr status).toList ++
      ' ' :: (st ++ "\r\n".toList ++ "Content-Type: ".toList ++ ct ++ "\r\n".toList ++
        "Content-Length: ".toList ++ (Nat.repr body.length).toList ++ "\r\n".toList ++
        "Access-Control-Allow-Origin: *\r\n".toList ++
        "Access-Control-Allow-Methods: GET, OPTIONS\r\n".toList),
      "Connection: close\r\n\r\n".toList ++ body,
      by simp only [write_response, List.append_assoc, List.cons_append]⟩
  · refine ⟨"HTTP/1.1 ".toList ++ (Nat.repr status).toList ++
      ' ' :: (st ++ "\r\n".toList ++ "Content-Type: ".toList ++ ct ++ "\r\n".toList ++
        "Content-Length: ".toList ++ (Nat.repr body.length).toList ++ "\r\n".toList ++
        "Access-Control-Allow-Origin: *\r\n".toList ++
        "Access-Control-Allow-Methods: GET, OPTIONS\r\n".toList ++
        "Access-Control-Allow-Headers: Content-Type\r\n".toList),
      "\r\n".toList ++ body, ?_⟩
    have hsplit : "Connection: close\r\n\r\n".toList =
        "Connection: close\r\n".toList ++ "\r\n".toList := by decide
    simp only [write_response, hsplit, List.append_assoc, List.cons_append]
  · rintro rfl
    refine ⟨"HTTP/1.1 ".toList ++ (Nat.repr status).toList ++
      ' ' :: (st ++ "\r\n".toList ++ "Content-Type: ".toList ++ ct ++ "\r\n".toList),
      "Access-Control-Allow-Origin: *\r\n".toList ++
        "Access-Control-Allow-Methods: GET, OPTIONS\r\n".toList ++
        "Access-Control-Allow-Headers: Content-Type\r\n".toList ++
        "Connection: close\r\n\r\n".toList, ?_⟩
    have hzero : "Content-Length: 0\r\n".toList =
        "Content-Length: ".toList ++ (Nat.repr (([] : List Char).length)).toList ++
          "\r\n".toList := by decide
    rw [hzero]
    simp only [write_response, List.append_assoc, List.cons_append, List.append_nil]

/-- Witness for C8 at a concrete response with an empty body. -/
theorem response_headers_invariant_witness :
    ∃ a b, write_response 204 noContentText contentTextPlain [] =
      a ++ "Content-Length: 0\r\n".toList ++ b :=
  (response_headers_invariant 204 noContentText contentTextPlain []).2.2.2.2.2.2 rfl

/-- C10: the request handler is a total function producing exactly one
response per raw buffer (modelled by totality of `handle_request`), and its
status code is always one of 200, 204, 400, 404, 405. -/
theorem status_code_invariant (buf now : List Char) :
    (handle_request buf now).status ∈ ([200, 204, 400, 404, 405] : List Nat) := by
  unfold handle_request
  cases hp : parse_request_line buf with
  | none => simp
  | some req =>
    dsimp only
    by_cases h1 : req.method = "OPTIONS".toList
    · rw [if_pos h1]
      simp
    · rw [if_neg h1]
      by_cases h2 : req.method = "GET".toList
      · rw [if_neg (not_not_intro h2)]
        by_cases h3 : starts_with req.path ("/api/v1/geo".toList) = true
        · rw [if_pos h3]
          rcases handle_geo_status req.query with h | h | h <;> simp [h]
        · rw [if_neg h3]
          by_cases h4 : starts_with req.path ("/api/v1/weather".toList) = true
          · rw [if_pos h4]
            rcases handle_weather_status req.query now with h | h <;> simp [h]
          · rw [if_neg h4]
            simp
      · rw [if_pos h2]
        simp

/-- C1: for every successfully parsed request, an OPTIONS method yields a 204
response with empty body regardless of path; any other non-GET method yields
405; a GET whose path starts with `/api/v1/geo` (e.g. `/api/v1/geography`) is
routed to the geo handler, one starting with `/api/v1/weather` to the weather
handler, and any other path yields 404. -/
theorem dispatcher_routing (buf now : List Char) (req : ParsedRequest)
    (hp : parse_request_line buf = some req) :
    (req.method = "OPTIONS".toList →
      handle_request buf now = ⟨204, noContentText, contentTextPlain, []⟩) ∧
    (req.method ≠ "OPTIONS".toList → req.method ≠ "GET".toList →
      handle_request buf now = ⟨405, methodNAText, contentJson, json_error 405 msgMethodNA⟩) ∧
    (req.method = "GET".toList → starts_with req.path ("/api/v1/geo".toList) = true →
      handle_request buf now = handle_geo req.query) ∧
    (req.method = "GET".toList → starts_with req.path ("/api/v1/geo".toList) = false →
      starts_with req.path ("/api/v1/weather".toList) = true →
      handle_request buf now = handle_weather req.query now) ∧
    (req.method = "GET".toList → starts_with req.path ("/api/v1/geo".toList) = false →
      starts_with req.path ("/api/v1/weather".toList) = false →
      handle_request buf now = ⟨404, notFoundText, contentJson, json_error 404 msgNotFound⟩) ∧
    starts_with ("/api/v1/geography".toList) ("/api/v1/geo".toList) = true := by
  unfold handle_request
  rw [hp]
  dsimp only
  refine ⟨?_, ?_, ?_, ?_, ?_, by decide⟩
  · intro h
    rw [if_pos h]
  · intro h1 h2
    rw [if_neg h1, if_pos h2]
  · intro h1 h3
    rw [if_neg (by rw [h1]; decide), if_neg (not_not_intro h1), if_pos h3]
  · intro h1 h3 h4
    rw [if_neg (by rw [h1]; decide), if_neg (not_not_intro h1),
      if_neg (by rw [h3]; exact Bool.false_ne_true), if_pos h4]
  · intro h1 h3 h4
    rw [if_neg (by rw [h1]; decide), if_neg (not_not_intro h1),
      if_neg (by rw [h3]; exact Bool.false_ne_true),
      if_neg (by rw [h4]; exact Bool.false_ne_true)]

/-- Witness for C1 at a concrete OPTIONS request. -/
theorem dispatcher_routing_witness :
    handle_request ("OPTIONS /x HTTP/1.1\r\n".toList) [] =
      ⟨204, noContentText, contentTextPlain, []⟩ :=
  (dispatcher_routing ("OPTIONS /x HTTP/1.1\r\n".toList) []
    ⟨"OPTIONS".toList, "/x".toList, none⟩ (by decide)).1 (by decide)

/-- C2: the geo handler answers a missing `city` parameter with 400 and the
exact error body, an over-100-character name with 400, an unknown name (no
exact case-sensitive dataset match) with 404, and otherwise 200 with the JSON
body built from the matched dataset entry, whose latitude and longitude are
formatted with exactly 4 digits after the decimal point. -/
theorem geo_handler_behavior (q : Option (List Char)) :
    (parse_query_param q ("city".toList) 128 = none →
      handle_geo q = ⟨400, badRequestText, contentJson,
        ("\x7b\"error\":\x7b\"code\":400,\"message\":\"missing query param: city\"\x7d\x7d".toList)⟩) ∧
    (∀ city, parse_query_param q ("city".toList) 128 = some city → 100 < city.length →
      handle_geo q = ⟨400, badRequestText, contentJson, json_error 400 msgCityTooLong⟩) ∧
    (∀ city, parse_query_param q ("city".toList) 128 = some city → ¬ 100 < city.length →
      find_city_by_name city = none →
      handle_geo q = ⟨404, notFoundText, contentJson, json_error 404 msgCityNotFound⟩) ∧
    (∀ city, find_city_by_name city = none ↔ ∀ c ∈ DEMO_CITIES, c.city ≠ city) ∧
    (∀ city c, parse_query_param q ("city".toList) 128 = some city → ¬ 100 < city.length →
      find_city_by_name city = some c →
      handle_geo q = ⟨200, okText, contentJson, geoBody c⟩ ∧ c.city = city ∧ c ∈ DEMO_CITIES) ∧
    (∀ c ∈ DEMO_CITIES,
      (splitFirst '.' (fmt4 c.lat)).map (fun pr => pr.2.length) = some 4 ∧
      (splitFirst '.' (fmt4 c.lon)).map (fun pr => pr.2.length) = some 4) := by
  refine ⟨?_, ?_, ?_, ?_, ?_, by decide⟩
  · intro h
    unfold handle_geo
    rw [h]
    decide
  · intro city h hl
    unfold handle_geo
    rw [h]
    dsimp only
    rw [if_pos hl]
  · intro city h hl hf
    unfold handle_geo
    rw [h]
    dsimp only
    rw [if_neg hl, hf]
  · intro city
    constructor
    · intro h c hc
      have hd := List.find?_eq_none.mp h c hc
      simpa using hd
    · intro h
      apply List.find?_eq_none.mpr
      intro c hc
      simpa using h c hc
  · intro city c h hl hf
    refine ⟨?_, ?_, ?_⟩
    · unfold handle_geo
      rw [h]
      dsimp only
      rw [if_neg hl, hf]
    · have hd := List.find?_some hf
      simpa using hd
    · exact List.mem_of_find?_eq_some hf

/-- Witness for C2 at the concrete query `city=Malmo`. -/
theorem geo_handler_behavior_witness :
    handle_geo (some ("city=Malmo".toList)) =
      ⟨200, okText, contentJson, geoBody ⟨"Malmo".toList, "SE".toList, 55.6050, 13.0038⟩⟩ :=
  ((geo_handler_behavior (some ("city=Malmo".toList))).2.2.2.2.1 ("Malmo".toList)
    ⟨"Malmo".toList, "SE".toList, 55.6050, 13.0038⟩ (by decide) (by decide) (by decide)).1

/-- C4: the weather handler answers with 400 when `lat` or `lon` is absent;
present parameters are converted with `atof`, which maps input with no digit
characters to 0 (no format-error path); latitude outside [-90, 90] and
longitude outside [-180, 180] are answered with 400 carrying distinct,
range-specific messages. -/
theorem weather_validation (q : Option (List Char)) (now : List Char) :
    ((parse_query_param q ("lat".toList) 64 = none ∨
        parse_query_param q ("lon".toList) 64 = none) →
      handle_weather q now = ⟨400, badRequestText, contentJson, json_error 400 msgMissingLatLon⟩) ∧
    (∀ ls los, parse_query_param q ("lat".toList) 64 = some ls →
      parse_query_param q ("lon".toList) 64 = some los →
      ¬(-90 ≤ atof ls ∧ atof ls ≤ 90) →
      handle_weather q now = ⟨400, badRequestText, contentJson, json_error 400 msgLatRange⟩) ∧
    (∀ ls los, parse_query_param q ("lat".toList) 64 = some ls →
      parse_query_param q ("lon".toList) 64 = some los →
      (-90 ≤ atof ls ∧ atof ls ≤ 90) → ¬(-180 ≤ atof los ∧ atof los ≤ 180) →
      handle_weather q now = ⟨400, badRequestText, contentJson, json_error 400 msgLonRange⟩) ∧
    json_error 400 msgLatRange ≠ json_error 400 msgLonRange ∧
    (∀ s : List Char, (∀ c ∈ s, isDigitChar c = false) → atof s = 0) := by
  refine ⟨?_, ?_, ?_, by decide, fun s h => atof_no_digits s h⟩
  · intro h
    unfold handle_weather
    rcases h with h | h
    · rw [h]
    · cases hp1 : parse_query_param q ("lat".toList) 64 with
      | none => rfl
      | some ls => rw [h]
  · intro ls los h1 h2 hr
    unfold handle_weather
    rw [h1, h2]
    dsimp only
    rw [if_pos hr]
  · intro ls los h1 h2 hA hB
    unfold handle_weather
    rw [h1, h2]
    dsimp only
    rw [if_neg (not_not_intro hA), if_pos hB]

/-- Witness for C4 at the concrete query `lat=100&lon=0` (latitude out of
range). -/
theorem weather_validation_witness :
    handle_weather (some ("lat=100&lon=0".toList)) [] =
      ⟨400, badRequestText, contentJson, json_error 400 msgLatRange⟩ :=
  (weather_validation (some ("lat=100&lon=0".toList)) []).2.1 ("100".toList) ("0".toList)
    (by decide) (by decide) (by decide)

/-- C3: for in-range coordinates the weather handler answers 200 with the
temperature/description derived from the first dataset record (in dataset
order) within 0.01 degrees on both axes; a record named Malmo maps to
10.5/"Sunny", Gothenburg to 8.2/"Windy", Orebro to 6.3/"Overcast", and any
other match or no match yields the default 7.0/"Cloudy". -/
theorem weather_proximity_selection (q : Option (List Char)) (now ls los : List Char)
    (h1 : parse_query_param q ("lat".toList) 64 = some ls)
    (h2 : parse_query_param q ("lon".toList) 64 = some los)
    (hlat : -90 ≤ atof ls ∧ atof ls ≤ 90)
    (hlon : -180 ≤ atof los ∧ atof los ≤ 180) :
    handle_weather q now = ⟨200, okText, contentJson,
      weatherBody (tempDesc (find_city_by_coords (atof ls) (atof los))).1
        (tempDesc (find_city_by_coords (atof ls) (atof los))).2 now⟩ ∧
    (∀ c, find_city_by_coords (atof ls) (atof los) = some c →
      nearOf (atof ls) (atof los) c = true ∧
      ∃ l1 l2, DEMO_CITIES = l1 ++ c :: l2 ∧ ∀ e ∈ l1, nearOf (atof ls) (atof los) e = false) ∧
    (find_city_by_coords (atof ls) (atof los) = none →
      ∀ e ∈ DEMO_CITIES, nearOf (atof ls) (atof los) e = false) ∧
    (∀ c : City, c.city = "Malmo".toList → tempDesc (some c) = (10.5, "Sunny".toList)) ∧
    (∀ c : City, c.city = "Gothenburg".toList → tempDesc (some c) = (8.2, "Windy".toList)) ∧
    (∀ c : City, c.city = "Orebro".toList → tempDesc (some c) = (6.3, "Overcast".toList)) ∧
    (∀ c : City, c.city ≠ "Malmo".toList → c.city ≠ "Gothenburg".toList →
      c.city ≠ "Orebro".toList → tempDesc (some c) = (7.0, "Cloudy".toList)) ∧
    tempDesc none = (7.0, "Cloudy".toList) := by
  refine ⟨?_, ?_, ?_, ?_, ?_, ?_, ?_, rfl⟩
  · unfold handle_weather
    rw [h1, h2]
    dsimp only
    rw [if_neg (not_not_intro hlat), if_neg (not_not_intro hlon)]
  · intro c hc
    exact find?_eq_some_first _ _ c hc
  · intro hnone e he
    have hd := List.find?_eq_none.mp hnone e he
    simpa using hd
  · intro c hc
    unfold tempDesc
    dsimp only
    rw [if_pos hc]
  · intro c hc
    unfold tempDesc
    dsimp only
    rw [if_neg (by rw [hc]; decide), if_pos hc]
  · intro c hc
    unfold tempDesc
    dsimp only
    rw [if_neg (by rw [hc]; decide), if_neg (by rw [hc]; decide), if_pos hc]
  · intro c hm hg ho
    unfold tempDesc
    dsimp only
    rw [if_neg hm, if_neg hg, if_neg ho]

/-- Witness for C3 at Malmo's exact coordinates. -/
theorem weather_proximity_selection_witness :
    handle_weather (some ("lat=55.6050&lon=13.0038".toList)) [] =
      ⟨200, okText, contentJson,
        weatherBody
          (tempDesc (find_city_by_coords (atof ("55.6050".toList)) (atof ("13.0038".toList)))).1
          (tempDesc (find_city_by_coords (atof ("55.6050".toList)) (atof ("13.0038".toList)))).2
          []⟩ :=
  (weather_proximity_selection (some ("lat=55.6050&lon=13.0038".toList)) []
    ("55.6050".toList) ("13.0038".toList) (by decide) (by decide) (by decide) (by decide)).1

/-- C7: request-line parsing fails exactly when the buffer holds no CRLF, no
space separates the method from the rest of the first line, or no second
space separates path+query from the protocol version token; on success the
(clamped) path buffer is split at its first `?`, everything before it being
the path and everything after it (possibly empty) the query, while absence of
`?` yields no query. -/
theorem request_line_parsing (buf : List Char) :
    (parse_request_line buf = none ↔
      (¬ ∃ a b, buf = a ++ '\r' :: '\n' :: b) ∨
      (∃ line rest, crlfSplit buf = some (line, rest) ∧ ' ' ∉ line) ∨
      (∃ line rest m r2, crlfSplit buf = some (line, rest) ∧
        splitFirst ' ' line = some (m, r2) ∧ ' ' ∉ r2)) ∧
    (∀ req, parse_request_line buf = some req →
      ∃ line rest m r2 pq r3, crlfSplit buf = some (line, rest) ∧
        splitFirst ' ' line = some (m, r2) ∧ splitFirst ' ' r2 = some (pq, r3) ∧
        req.method = m.take 15 ∧
        ('?' ∉ pq.take 255 → req.path = pq.take 255 ∧ req.query = none) ∧
        (∀ a b, pq.take 255 = a ++ '?' :: b → '?' ∉ a →
          req.path = a ∧ req.query = some b)) := by
  constructor
  · constructor
    · intro h
      unfold parse_request_line at h
      cases hc : crlfSplit buf with
      | none =>
        left
        exact (crlfSplit_none_iff buf).mp hc
      | some lr =>
        obtain ⟨line, rest⟩ := lr
        rw [hc] at h
        dsimp only at h
        right
        cases hs1 : splitFirst ' ' line with
        | none =>
          left
          exact ⟨line, rest, rfl, (splitFirst_none_iff _ _).mp hs1⟩
        | some mr =>
          obtain ⟨m, r2⟩ := mr
          rw [hs1] at h
          dsimp only at h
          right
          cases hs2 : splitFirst ' ' r2 with
          | none => exact ⟨line, rest, m, r2, rfl, hs1, (splitFirst_none_iff _ _).mp hs2⟩
          | some pr =>
            obtain ⟨pq, r3⟩ := pr
            rw [hs2] at h
            dsimp only at h
            exfalso
            cases hs3 : splitFirst '?' (pq.take 255) with
            | none =>
              rw [hs3] at h
              exact Option.noConfusion h
            | some ab =>
              obtain ⟨pa, qb⟩ := ab
              rw [hs3] at h
              exact Option.noConfusion h
    · intro h
      unfold parse_request_line
      rcases h with h | h | h
      · rw [(crlfSplit_none_iff buf).mpr h]
      · obtain ⟨line, rest, hc, hsp⟩ := h
        rw [hc]
        dsimp only
        rw [(splitFirst_none_iff ' ' line).mpr hsp]
      · obtain ⟨line, rest, m, r2, hc, hs1, hsp⟩ := h
        rw [hc]
        dsimp only
        rw [hs1]
        dsimp only
        rw [(splitFirst_none_iff ' ' r2).mpr hsp]
  · intro req h
    unfold parse_request_line at h
    cases hc : crlfSplit buf with
    | none =>
      rw [hc] at h
      exact Option.noConfusion h
    | some lr =>
      obtain ⟨line, rest⟩ := lr
      rw [hc] at h
      dsimp only at h
      cases hs1 : splitFirst ' ' line with
      | none =>
        rw [hs1] at h
        exact Option.noConfusion h
      | some mr =>
        obtain ⟨m, r2⟩ := mr
        rw [hs1] at h
        dsimp only at h
        cases hs2 : splitFirst ' ' r2 with
        | none =>
          rw [hs2] at h
          exact Option.noConfusion h
        | some pr =>
          obtain ⟨pq, r3⟩ := pr
          rw [hs2] at h
          dsimp only at h
          cases hs3 : splitFirst '?' (pq.take 255) with
          | none =>
            rw [hs3] at h
            dsimp only at h
            injection h with h'
            subst h'
            refine ⟨line, rest, m, r2, pq, r3, rfl, hs1, hs2, rfl, ?_, ?_⟩
            · intro _
              exact ⟨rfl, rfl⟩
            · intro a b hab _
              have hmem : '?' ∈ pq.take 255 := by
                rw [hab]
                simp
              exact absurd hmem ((splitFirst_none_iff '?' (pq.take 255)).mp hs3)
          | some ab =>
            obtain ⟨pa, qb⟩ := ab
            rw [hs3] at h
            dsimp only at h
            injection h with h'
            subst h'
            obtain ⟨hpa_eq, hpa_nm⟩ := splitFirst_eq_some '?' (pq.take 255) pa qb hs3
            refine ⟨line, rest, m, r2, pq, r3, rfl, hs1, hs2, rfl, ?_, ?_⟩
            · intro hq
              exact absurd (by rw [hpa_eq]; simp : '?' ∈ pq.take 255) hq
            · intro a b hab hanm
              obtain ⟨rfl, rfl⟩ := split_unique hanm hpa_nm (hab.symm.trans hpa_eq)
              exact ⟨rfl, rfl⟩

/-- Witness for C7: a buffer whose first line has no space fails to parse. -/
theorem request_line_parsing_witness :
    parse_request_line ("NOSPACE\r\nGET / HTTP/1.1\r\n".toList) = none :=
  (request_line_parsing ("NOSPACE\r\nGET / HTTP/1.1\r\n".toList)).1.mpr
    (Or.inr (Or.inl ⟨"NOSPACE".toList, "GET / HTTP/1.1\r\n".toList, by decide, by decide⟩))

/-- C6 counterexample: the claim's pair-splitting description fails for a
requested key containing `&`.  For query `a&b=1` and key `a&b` the code finds
value `1` (its `=` search spans the whole remaining string, so the candidate
key crosses the `&`), while splitting into pairs `a` and `b=1` first — keys
`a` and `b` — matches nothing. -/
theorem query_param_pair_cex :
    parse_query_param (some ("a&b=1".toList)) ("a&b".toList) 128 = some ("1".toList) ∧
    parseQueryParam_spec ("a&b=1".toList) ("a&b".toList) 128 = none := by
  constructor
  · decide
  · decide

/-- C6 (amended): for every requested key containing no `&` (and every
caller maximum `1 ≤ outlen ≤ 2^64` with query shorter than `2^64` bytes, the
`size_t` range), the lookup behaves exactly as the spec describes: the query
is split on `&` into pairs, each pair on its first `=` into key and value,
keys are compared exactly and case-sensitively, the percent-decoded value of
the first matching pair is returned (duplicates are not merged), absence of
the query or of any match reports not-found, and an overlong value is
truncated to `outlen - 1` bytes rather than rejected. -/
theorem query_param_amended (key q : List Char) (outlen : Nat)
    (hk : '&' ∉ key) (h1 : 1 ≤ outlen) (h2 : outlen ≤ 2 ^ 64) (hq : q.length < 2 ^ 64) :
    parse_query_param (some q) key outlen = parseQueryParam_spec q key outlen ∧
    parse_query_param none key outlen = none := by
  constructor
  · show pqpF key outlen (q.length + 1) q = _
    unfold parseQueryParam_spec
    by_cases hqe : q = []
    · subst hqe
      rw [if_pos rfl]
      rfl
    · rw [if_neg hqe]
      exact pqpF_eq_spec key outlen hk h1 h2 q.length q le_rfl hq
  · rfl

/-- Witness for the amended C6 at a concrete query with a duplicate key. -/
theorem query_param_amended_witness :
    parse_query_param (some ("a=1&city=Malmo&city=Lund".toList)) ("city".toList) 128 =
      parseQueryParam_spec ("a=1&city=Malmo&city=Lund".toList) ("city".toList) 128 :=
  (query_param_amended ("city".toList) ("a=1&city=Malmo&city=Lund".toList) 128
    (by decide) (by decide) (by decide) (by decide)).1

end WeatherServer
